import Mathlib

/-!
Verification development for the Delsys EMG signal-processing repository.

The embedding is shallow: the C++ `float` arithmetic is modelled over `ℚ`
(exact arithmetic, no rounding), and the transcendental library calls
(`sin`, `cos`, `sqrt`, `sinh`, `log`) are passed in as oracle functions
`ℚ → ℚ`, so every definition stays computable and every theorem quantifies
over all possible values these calls could return.  Floating-point
non-finiteness (NaN/Inf) is modelled by an abstract predicate
`is_finite : ℚ → Bool` passed to the code that tests for it, constrained
only where the source constrains it (`0` counts as finite).

Sources embedded:
  - `src/Filter.h`, `src/Filter.cpp` (the `Filter` class, `rectify`);
  - `src/EMGProcessingSimulation.cpp` (generator with NaN/Inf guard,
    main-loop tick, adjustable high-pass reconfiguration, circular
    buffers);
  - `src/Wave_Processing.cpp` (generator without guard, `notch_filter`).
-/

namespace Delsys

/-- The literal `PI` defined in the C++ sources (`#define PI 3.14159265358979323846`). -/
def PI : ℚ := 3.14159265358979323846

/-- `enum class FilterType` from `Filter.h`. -/
inductive FilterType
  | HighPass
  | BandPass
  | LowPass
deriving DecidableEq

/-- The `Filter` class from `Filter.h`: feedforward coefficients `b0 b1 b2`,
feedback coefficients `a0 a1 a2`, and the delay lines `x1 x2 y1 y2`. -/
structure Filter where
  b0 : ℚ
  b1 : ℚ
  b2 : ℚ
  a0 : ℚ
  a1 : ℚ
  a2 : ℚ
  x1 : ℚ
  x2 : ℚ
  y1 : ℚ
  y2 : ℚ
deriving DecidableEq

/-- The six coefficients as computed by the `switch` in `Filter::Filter`
(`Filter.cpp` lines 13-56), before the normalization by `a0`. -/
structure RawCoeffs where
  a0 : ℚ
  a1 : ℚ
  a2 : ℚ
  b0 : ℚ
  b1 : ℚ
  b2 : ℚ
deriving DecidableEq

/-- The `switch (type)` of `Filter::Filter` (`Filter.cpp` lines 13-56): raw,
unnormalized coefficients.  The trig/log calls are the oracle parameters. -/
def Filter.rawCoeffs (sin cos sqrt sinh log : ℚ → ℚ) (type : FilterType)
    (sample_rate freq1 freq2 q : ℚ) : RawCoeffs :=
  match type with
  | FilterType.HighPass =>
    let omega := 2 * PI * freq1 / sample_rate
    let alpha := sin omega / (2 * q)
    { a0 := 1 + alpha, a1 := -2 * cos omega, a2 := 1 - alpha,
      b0 := (1 + cos omega) / 2, b1 := -(1 + cos omega), b2 := (1 + cos omega) / 2 }
  | FilterType.BandPass =>
    let wc := 2 * PI * sqrt (freq1 * freq2) / sample_rate
    let bw := 2 * PI * (freq2 - freq1) / sample_rate
    let alpha := sin bw * sinh (log 2 / 2 * 1 * PI / 2)
    let cosw := cos wc
    { a0 := 1 + alpha, a1 := -2 * cosw, a2 := 1 - alpha,
      b0 := alpha, b1 := 0, b2 := -alpha }
  | FilterType.LowPass =>
    let omega := 2 * PI * freq1 / sample_rate
    let alpha := sin omega / (2 * q)
    { a0 := 1 + alpha, a1 := -2 * cos omega, a2 := 1 - alpha,
      b0 := (1 - cos omega) / 2, b1 := 1 - cos omega, b2 := (1 - cos omega) / 2 }

/-- The constructor `Filter::Filter` (`Filter.cpp` lines 8-65): delay lines
zero-initialized, raw coefficients from the `switch`, then every coefficient
divided by the raw `a0` and `a0` set to `1`.  The C++ declaration defaults
`freq2 = 0` and `q = 1`; call sites below pass those values explicitly. -/
def Filter.construct (sin cos sqrt sinh log : ℚ → ℚ) (type : FilterType)
    (sample_rate freq1 freq2 q : ℚ) : Filter :=
  let c := Filter.rawCoeffs sin cos sqrt sinh log type sample_rate freq1 freq2 q
  { b0 := c.b0 / c.a0, b1 := c.b1 / c.a0, b2 := c.b2 / c.a0,
    a0 := 1, a1 := c.a1 / c.a0, a2 := c.a2 / c.a0,
    x1 := 0, x2 := 0, y1 := 0, y2 := 0 }

/-- `Filter::process` (`Filter.cpp` lines 67-77): the difference equation on
the current state, then the delay-line shift.  Returns the output together
with the mutated object. -/
def Filter.process (f : Filter) (input : ℚ) : ℚ × Filter :=
  let output := f.b0 * input + f.b1 * f.x1 + f.b2 * f.x2 - f.a1 * f.y1 - f.a2 * f.y2
  (output, { f with x2 := f.x1, x1 := input, y2 := f.y1, y1 := output })

/-- `Filter::process` iterated over a list of input samples (one call per
sample, state threaded through). -/
def Filter.processList (f : Filter) : List ℚ → List ℚ × Filter
  | [] => ([], f)
  | input :: rest =>
    let step := f.process input
    let next := step.2.processList rest
    (step.1 :: next.1, next.2)

/-- `rectify` (`Filter.cpp` lines 79-81): absolute value. -/
def rectify (input : ℚ) : ℚ := |input|

/-! ### Circular history buffers

`EMGProcessingSimulation.cpp` keeps `std::vector<float>` buffers of size
`BUFFER_SIZE` together with a shared `buffer_index`.  A write is
`buf[buffer_index] = v; buffer_index = (buffer_index + 1) % BUFFER_SIZE`
(lines 294-298), and the renderer reads the most recent window as
`buf[(buffer_index + i) % BUFFER_SIZE]` for `i = 0 .. BUFFER_SIZE - 1`
(lines 154-157).  `RingBuffer` packages one vector with its cursor. -/

/-- One circular buffer: the backing vector and the write cursor. -/
structure RingBuffer where
  buf : List ℚ
  idx : ℕ
deriving DecidableEq

/-- One push: `buf[idx] = v; idx = (idx + 1) % buf.size()`
(`EMGProcessingSimulation.cpp` lines 294-298). -/
def RingBuffer.push (r : RingBuffer) (v : ℚ) : RingBuffer :=
  { buf := r.buf.set r.idx v, idx := (r.idx + 1) % r.buf.length }

/-- The renderer's read pattern (`EMGProcessingSimulation.cpp` lines
154-157): the window `buf[(idx + i) % N]` for `i = 0 .. N - 1`, oldest
sample first. -/
def RingBuffer.snapshot (r : RingBuffer) : List ℚ :=
  (List.range r.buf.length).map fun i => r.buf.getD ((r.idx + i) % r.buf.length) 0

/-- Push a whole list of samples, one tick each. -/
def RingBuffer.pushAll (r : RingBuffer) (vs : List ℚ) : RingBuffer :=
  vs.foldl RingBuffer.push r

/-- A freshly constructed buffer of capacity `N`:
`std::vector<float> raw_signal(BUFFER_SIZE, 0.0f)` with `buffer_index = 0`. -/
def RingBuffer.init (N : ℕ) : RingBuffer :=
  { buf := List.replicate N 0, idx := 0 }

/-! ### Synthetic EMG generators

Both `generate_emg_signal` variants keep `static` locals
(`phase1`, `phase2`, `burst_factor`, `burst_duration`) and consume uniform
random draws.  The draws consumed by one call are collected in `Draws`;
quantifying over a `Draws` value covers every possible random outcome. -/

/-- The `static` locals of `generate_emg_signal`.  `burst_duration` is a C++
`int`, modelled as `ℤ`. -/
structure GenState where
  phase1 : ℚ
  phase2 : ℚ
  burst_factor : ℚ
  burst_duration : ℤ
deriving DecidableEq

/-- The uniform random draws one generator call can consume:
`burst_dist(gen)`, `burst_scale(gen)`, the two `amp_dist(gen)` draws, the
two `freq_dist(gen)` draws, and the additive noise `dist(gen)`. -/
structure Draws where
  burst_trial : ℚ
  burst_scale : ℚ
  amp1 : ℚ
  amp2 : ℚ
  freq1 : ℚ
  freq2 : ℚ
  noise : ℚ
deriving DecidableEq

/-- `SAMPLE_RATE = 2000.0f` (both simulation sources). -/
def SAMPLE_RATE : ℚ := 2000

/-- `TIME_STEP = 1.0f / SAMPLE_RATE`. -/
def TIME_STEP : ℚ := 1 / SAMPLE_RATE

/-- `BUFFER_SIZE = 1000` (both simulation sources). -/
def BUFFER_SIZE : ℕ := 1000

/-- `EMG_FREQ = 20.0f` (both simulation sources). -/
def EMG_FREQ : ℚ := 20

/-- `POWER_LINE_FREQ = 3.0f` in `EMGProcessingSimulation.cpp`. -/
def POWER_LINE_FREQ : ℚ := 3

/-- `POWER_LINE_AMPLITUDE = 1.0f` in `EMGProcessingSimulation.cpp`. -/
def POWER_LINE_AMPLITUDE : ℚ := 1

/-- `POWER_LINE_FREQ = 10.0f` in `Wave_Processing.cpp`. -/
def WAVE_POWER_LINE_FREQ : ℚ := 10

/-- `POWER_LINE_AMPLITUDE = 0.3f` in `Wave_Processing.cpp`. -/
def WAVE_POWER_LINE_AMPLITUDE : ℚ := 0.3

/-- `NOTCH_FREQ = 10.0f` in `Wave_Processing.cpp`. -/
def NOTCH_FREQ : ℚ := 10

/-- `NOTCH_Q = 30.0f` in `Wave_Processing.cpp`. -/
def NOTCH_Q : ℚ := 30

/-- Burst state machine shared by both generator variants
(`EMGProcessingSimulation.cpp` lines 85-95, `Wave_Processing.cpp` lines
62-72): on every 50th sample a Bernoulli trial may arm a 100-sample burst
or, failing with the countdown exhausted, reset the multiplier to `1`;
afterwards a positive countdown is decremented.  Returns the
`(burst_factor, burst_duration)` pair after this call. -/
def burstUpdate (d : Draws) (buffer_index : ℕ) (s : GenState) : ℚ × ℤ :=
  let armed : ℚ × ℤ :=
    if buffer_index % 50 = 0 then
      if d.burst_trial < 0.2 then (d.burst_scale, 100)
      else if s.burst_duration ≤ 0 then (1, s.burst_duration)
      else (s.burst_factor, s.burst_duration)
    else (s.burst_factor, s.burst_duration)
  (armed.1, if armed.2 > 0 then armed.2 - 1 else armed.2)

/-- The value computed by `generate_emg_signal` in
`EMGProcessingSimulation.cpp` (lines 79-111) before the finiteness check,
together with the mutated `static` state: burst machine, jittered
amplitudes/frequencies, phase accumulation, power-line interference at
`POWER_LINE_FREQ`, additive noise. -/
def generate_emg_compute (sin : ℚ → ℚ) (d : Draws) (buffer_index : ℕ)
    (t : ℚ) (s : GenState) : ℚ × GenState :=
  let burst := burstUpdate d buffer_index s
  let amp1 := 0.5 * d.amp1
  let amp2 := 0.3 * d.amp2
  let freq1 := EMG_FREQ * d.freq1
  let freq2 := EMG_FREQ * 1.5 * d.freq2
  let phase1 := s.phase1 + 2 * PI * freq1 * TIME_STEP
  let phase2 := s.phase2 + 2 * PI * freq2 * TIME_STEP
  let emg := burst.1 * (amp1 * sin phase1 + amp2 * sin phase2)
      + POWER_LINE_AMPLITUDE * sin (2 * PI * POWER_LINE_FREQ * t) + d.noise
  (emg, { phase1 := phase1, phase2 := phase2,
          burst_factor := burst.1, burst_duration := burst.2 })

/-- `generate_emg_signal` from `EMGProcessingSimulation.cpp` (lines 79-118):
the computed value, guarded by the `std::isnan || std::isinf` check (lines
112-118) which substitutes `0` for a non-finite result.  `is_finite` is the
oracle for `!(std::isnan(x) || std::isinf(x))`. -/
def generate_emg_signal (sin : ℚ → ℚ) (is_finite : ℚ → Bool) (d : Draws)
    (buffer_index : ℕ) (t : ℚ) (s : GenState) : ℚ × GenState :=
  let c := generate_emg_compute sin d buffer_index t s
  if is_finite c.1 then c else (0, c.2)

/-- `generate_emg_signal` from `Wave_Processing.cpp` (lines 56-87): same
structure with `WAVE_POWER_LINE_FREQ` / `WAVE_POWER_LINE_AMPLITUDE`, and no
finiteness check of any kind — the computed value is returned as is. -/
def wave_generate_emg_signal (sin : ℚ → ℚ) (d : Draws) (buffer_index : ℕ)
    (t : ℚ) (s : GenState) : ℚ × GenState :=
  let burst := burstUpdate d buffer_index s
  let amp1 := 0.5 * d.amp1
  let amp2 := 0.3 * d.amp2
  let freq1 := EMG_FREQ * d.freq1
  let freq2 := EMG_FREQ * 1.5 * d.freq2
  let phase1 := s.phase1 + 2 * PI * freq1 * TIME_STEP
  let phase2 := s.phase2 + 2 * PI * freq2 * TIME_STEP
  let emg := burst.1 * (amp1 * sin phase1 + amp2 * sin phase2)
      + WAVE_POWER_LINE_AMPLITUDE * sin (2 * PI * WAVE_POWER_LINE_FREQ * t) + d.noise
  (emg, { phase1 := phase1, phase2 := phase2,
          burst_factor := burst.1, burst_duration := burst.2 })

/-! ### The notch stage of `Wave_Processing.cpp`

`notch_filter` (lines 150-169) recomputes its coefficients on every call
and divides the computed output by `a0` instead of pre-normalizing.  The
source fixes `NOTCH_FREQ`, `NOTCH_Q` and `SAMPLE_RATE`; the embedding takes
them as parameters so the equivalence can be stated for every notch
configuration. -/

/-- The four delay-line reference parameters of the free-function filters in
`Wave_Processing.cpp` (`float& x1, ... float& y2`). -/
structure DelayState where
  x1 : ℚ
  x2 : ℚ
  y1 : ℚ
  y2 : ℚ
deriving DecidableEq

/-- `notch_filter` (`Wave_Processing.cpp` lines 150-169): raw coefficients,
output `= (b0*input + b1*x1 + b2*x2 - a1*y1 - a2*y2) / a0`, delay-line
shift. -/
def notch_filter (sin cos : ℚ → ℚ) (notch_freq notch_q sample_rate : ℚ)
    (input : ℚ) (st : DelayState) : ℚ × DelayState :=
  let omega := 2 * PI * notch_freq / sample_rate
  let alpha := sin omega / (2 * notch_q)
  let a0 := 1 + alpha
  let a1 := -2 * cos omega
  let a2 := 1 - alpha
  let b0 := 1
  let b1 := -2 * cos omega
  let b2 := 1
  let output := (b0 * input + b1 * st.x1 + b2 * st.x2 - a1 * st.y1 - a2 * st.y2) / a0
  (output, { x1 := input, x2 := st.x1, y1 := output, y2 := st.y1 })

/-- `notch_filter` iterated over a list of input samples. -/
def notchRun (sin cos : ℚ → ℚ) (notch_freq notch_q sample_rate : ℚ)
    (st : DelayState) : List ℚ → List ℚ × DelayState
  | [] => ([], st)
  | input :: rest =>
    let step := notch_filter sin cos notch_freq notch_q sample_rate input st
    let next := notchRun sin cos notch_freq notch_q sample_rate step.2 rest
    (step.1 :: next.1, next.2)

/-- The biquad that pre-normalizes the same notch coefficients: each of
`b0 b1 b2 a1 a2` divided by the raw `a0 = 1 + alpha`, `a0` fixed to `1`,
delay lines taken from `st`.  This is the normalized representation the
spec describes for the non-notch kinds, applied to the notch formulas. -/
def notchNormalized (sin cos : ℚ → ℚ) (notch_freq notch_q sample_rate : ℚ)
    (st : DelayState) : Filter :=
  let omega := 2 * PI * notch_freq / sample_rate
  let alpha := sin omega / (2 * notch_q)
  let a0 := 1 + alpha
  { b0 := 1 / a0, b1 := -2 * cos omega / a0, b2 := 1 / a0,
    a0 := 1, a1 := -2 * cos omega / a0, a2 := (1 - alpha) / a0,
    x1 := st.x1, x2 := st.x2, y1 := st.y1, y2 := st.y2 }

/-- Formalization of the spec's fail-fast requirement (section 7(b)):
invalid configuration — non-positive sample rate, band-pass with
`freq2 ≤ freq1`, non-positive Q — is rejected at construction time with a
descriptive error.  This validation exists nowhere in the source; it is the
behavior the claim asserts, written down so it can be compared with
`Filter.construct`. -/
def Filter.constructChecked (sin cos sqrt sinh log : ℚ → ℚ) (type : FilterType)
    (sample_rate freq1 freq2 q : ℚ) : Except String Filter :=
  if sample_rate ≤ 0 then Except.error "non-positive sample rate"
  else if type = FilterType.BandPass ∧ freq2 ≤ freq1 then
    Except.error "band-pass requires freq1 < freq2"
  else if q ≤ 0 then Except.error "non-positive Q"
  else Except.ok (Filter.construct sin cos sqrt sinh log type sample_rate freq1 freq2 q)

/-! ### The main-loop tick of `EMGProcessingSimulation.cpp` -/

/-- The mutable state the main loop of `EMGProcessingSimulation.cpp`
threads between iterations: the three circular buffers with their shared
cursor, the three filter stages, the cutoff-change tracker, the time, and
the generator's `static` state. -/
structure SimState where
  raw_signal : List ℚ
  filtered_signal : List ℚ
  envelope_signal : List ℚ
  buffer_index : ℕ
  highPassFilter : Filter
  bandPassFilter : Filter
  lowPassFilter : Filter
  last_highpass_cutoff : ℚ
  t : ℚ
  gen : GenState
deriving DecidableEq

/-- The reconfiguration check at the top of each loop iteration
(`EMGProcessingSimulation.cpp` lines 279-284): if the adjustable cutoff
changed, the high-pass stage alone is replaced by a freshly constructed
filter (zero delay lines), mirroring the construction at line 269 with the
C++ default arguments `freq2 = 0`, `q = 1`. -/
def simReconfigure (sin cos sqrt sinh log : ℚ → ℚ)
    (adjustable_highpass_cutoff : ℚ) (s : SimState) : SimState :=
  if adjustable_highpass_cutoff ≠ s.last_highpass_cutoff then
    { s with
      highPassFilter := Filter.construct sin cos sqrt sinh log FilterType.HighPass
        SAMPLE_RATE adjustable_highpass_cutoff 0 1,
      last_highpass_cutoff := adjustable_highpass_cutoff }
  else s

/-- The signal-processing body of one un-paused loop iteration
(`EMGProcessingSimulation.cpp` lines 287-299): generator, high-pass,
band-pass, rectify, low-pass, buffer writes, cursor advance, time step. -/
def simTickBody (sin : ℚ → ℚ) (is_finite : ℚ → Bool) (d : Draws)
    (s : SimState) : SimState :=
  let rg := generate_emg_signal sin is_finite d s.buffer_index s.t s.gen
  let raw := rg.1
  let hp := s.highPassFilter.process raw
  let bp := s.bandPassFilter.process hp.1
  let rectified := rectify bp.1
  let lp := s.lowPassFilter.process rectified
  { raw_signal := s.raw_signal.set s.buffer_index raw,
    filtered_signal := s.filtered_signal.set s.buffer_index bp.1,
    envelope_signal := s.envelope_signal.set s.buffer_index lp.1,
    buffer_index := (s.buffer_index + 1) % BUFFER_SIZE,
    highPassFilter := hp.2,
    bandPassFilter := bp.2,
    lowPassFilter := lp.2,
    last_highpass_cutoff := s.last_highpass_cutoff,
    t := s.t + TIME_STEP,
    gen := rg.2 }

/-- One full loop iteration: the reconfiguration check runs first, strictly
before the generator and the cascade, so a cutoff change is applied between
ticks and never mid-cascade. -/
def simTick (sin cos sqrt sinh log : ℚ → ℚ) (is_finite : ℚ → Bool)
    (adjustable_highpass_cutoff : ℚ) (d : Draws) (s : SimState) : SimState :=
  simTickBody sin is_finite d
    (simReconfigure sin cos sqrt sinh log adjustable_highpass_cutoff s)

/-! ## Helper lemmas -/

/-- A filter with zero delay lines maps a zero input stream to a zero
output stream and is left unchanged. -/
theorem Filter.processList_zero (f : Filter) (h1 : f.x1 = 0) (h2 : f.x2 = 0)
    (h3 : f.y1 = 0) (h4 : f.y2 = 0) (n : ℕ) :
    f.processList (List.replicate n 0) = (List.replicate n 0, f) := by
  induction n generalizing f with
  | zero => rfl
  | succ n ih =>
    have hst : f.process 0 = (0, f) := by
      obtain ⟨b0, b1, b2, a0, a1, a2, x1, x2, y1, y2⟩ := f
      simp only at h1 h2 h3 h4
      subst h1 h2 h3 h4
      simp [Filter.process]
    simp [List.replicate_succ, Filter.processList, hst, ih f h1 h2 h3 h4]

/-- Pushing does not change the backing vector's length. -/
theorem RingBuffer.length_push (r : RingBuffer) (v : ℚ) :
    (r.push v).buf.length = r.buf.length :=
  List.length_set ..

/-- Pushing keeps the cursor in bounds. -/
theorem RingBuffer.idx_push_lt (r : RingBuffer) (v : ℚ) (h : 0 < r.buf.length) :
    (r.push v).idx < (r.push v).buf.length := by
  simp only [RingBuffer.push, List.length_set]
  exact Nat.mod_lt _ h

/-- The snapshot has one entry per buffer slot. -/
theorem RingBuffer.length_snapshot (r : RingBuffer) :
    r.snapshot.length = r.buf.length := by
  simp [RingBuffer.snapshot]

/-- The `i`-th snapshot entry reads slot `(idx + i) % N`. -/
theorem RingBuffer.getElem_snapshot (r : RingBuffer) (i : ℕ)
    (h : i < r.snapshot.length) :
    r.snapshot[i] = r.buf.getD ((r.idx + i) % r.buf.length) 0 := by
  simp [RingBuffer.snapshot]

/-- One push shifts the snapshot window: the oldest entry falls off the
front and the pushed value appears at the back. -/
theorem RingBuffer.snapshot_push (r : RingBuffer) (v : ℚ) (h : r.idx < r.buf.length) :
    (r.push v).snapshot = r.snapshot.drop 1 ++ [v] := by
  have hNpos : 0 < r.buf.length := Nat.lt_of_le_of_lt (Nat.zero_le _) h
  have hlenL : (r.push v).snapshot.length = r.buf.length := by
    rw [RingBuffer.length_snapshot, RingBuffer.length_push]
  have hlenS : r.snapshot.length = r.buf.length := RingBuffer.length_snapshot r
  apply List.ext_getElem
  · simp only [hlenL, List.length_append, List.length_drop, hlenS, List.length_singleton]
    omega
  · intro i h1 h2
    have hiN : i < r.buf.length := by rwa [hlenL] at h1
    have hL : (r.push v).snapshot[i]
        = (r.buf.set r.idx v).getD ((r.idx + 1 + i) % r.buf.length) 0 := by
      rw [RingBuffer.getElem_snapshot]
      simp only [RingBuffer.push, List.length_set, Nat.mod_add_mod]
    have hjlt : (r.idx + 1 + i) % r.buf.length < r.buf.length := Nat.mod_lt _ hNpos
    rcases Nat.lt_or_ge i (r.buf.length - 1) with hi | hi
    · -- a middle entry: it was the (i+1)-st entry of the old snapshot
      have hib : 1 + i < r.snapshot.length := by omega
      have hR : (r.snapshot.drop 1 ++ [v])[i]
          = r.buf.getD ((r.idx + (1 + i)) % r.buf.length) 0 := by
        rw [List.getElem_append_left (by simp only [List.length_drop, hlenS]; omega),
          List.getElem_drop]
        exact RingBuffer.getElem_snapshot r (1 + i) hib
      have hne : r.idx ≠ (r.idx + 1 + i) % r.buf.length := by
        by_cases hlt : r.idx + 1 + i < r.buf.length
        · rw [Nat.mod_eq_of_lt hlt]; omega
        · rw [Nat.mod_eq_sub_mod (Nat.le_of_not_lt hlt),
            Nat.mod_eq_of_lt (by omega)]
          omega
      have hadd : r.idx + (1 + i) = r.idx + 1 + i := by omega
      rw [hL, hR, hadd,
        List.getD_eq_getElem _ _ (by rw [List.length_set]; exact hjlt),
        List.getD_eq_getElem _ _ hjlt]
      exact List.getElem_set_ne hne _
    · -- the last entry: it reads the slot just overwritten with `v`
      have hieq : i = r.buf.length - 1 := by omega
      have hidx : (r.idx + 1 + i) % r.buf.length = r.idx := by
        have h1' : r.idx + 1 + i = r.idx + r.buf.length := by omega
        rw [h1', Nat.add_mod_right, Nat.mod_eq_of_lt h]
      rw [hL, hidx, List.getD_eq_getElem _ _ (by rw [List.length_set]; exact h),
        List.getElem_set_self]
      rw [List.getElem_append_right (by simp only [List.length_drop, hlenS]; omega)]
      simp [hlenS, hieq]

/-- Pushing a list does not change the backing vector's length. -/
theorem RingBuffer.length_pushAll (r : RingBuffer) (vs : List ℚ) :
    (r.pushAll vs).buf.length = r.buf.length := by
  induction vs generalizing r with
  | nil => rfl
  | cons v rest ih =>
    calc ((r.push v).pushAll rest).buf.length
        = (r.push v).buf.length := ih _
      _ = r.buf.length := RingBuffer.length_push r v

/-- Pushing a list keeps the cursor in bounds. -/
theorem RingBuffer.idx_pushAll_lt (r : RingBuffer) (vs : List ℚ)
    (h : r.idx < r.buf.length) :
    (r.pushAll vs).idx < (r.pushAll vs).buf.length := by
  induction vs generalizing r with
  | nil => exact h
  | cons v rest ih =>
    apply ih
    exact RingBuffer.idx_push_lt r v (Nat.lt_of_le_of_lt (Nat.zero_le _) h)

/-- Pushing a list of samples shifts the snapshot window past them: the
snapshot after the pushes is the tail of the old snapshot followed by the
pushed values. -/
theorem RingBuffer.snapshot_pushAll (r : RingBuffer) (vs : List ℚ)
    (h : r.idx < r.buf.length) :
    (r.pushAll vs).snapshot = (r.snapshot ++ vs).drop vs.length := by
  induction vs generalizing r with
  | nil => simp [RingBuffer.pushAll]
  | cons v rest ih =>
    have hNpos : 0 < r.buf.length := Nat.lt_of_le_of_lt (Nat.zero_le _) h
    have hlenS : r.snapshot.length = r.buf.length := RingBuffer.length_snapshot r
    calc (r.pushAll (v :: rest)).snapshot
        = ((r.push v).pushAll rest).snapshot := rfl
      _ = ((r.push v).snapshot ++ rest).drop rest.length :=
          ih _ (RingBuffer.idx_push_lt r v hNpos)
      _ = ((r.snapshot.drop 1 ++ [v]) ++ rest).drop rest.length := by
          rw [RingBuffer.snapshot_push r v h]
      _ = ((r.snapshot ++ (v :: rest)).drop 1).drop rest.length := by
          have h1 : (r.snapshot ++ (v :: rest)).drop 1
              = r.snapshot.drop 1 ++ (v :: rest) :=
            List.drop_append_of_le_length (by omega)
          rw [h1, List.append_assoc]
          rfl
      _ = (r.snapshot ++ (v :: rest)).drop (v :: rest).length := by
          rw [List.drop_drop, List.length_cons, Nat.add_comm]

/-- A fresh buffer's snapshot is all zeros. -/
theorem RingBuffer.snapshot_init (N : ℕ) :
    (RingBuffer.init N).snapshot = List.replicate N 0 := by
  apply List.eq_replicate_iff.mpr
  constructor
  · simp [RingBuffer.snapshot, RingBuffer.init]
  · intro b hb
    simp only [RingBuffer.snapshot, RingBuffer.init, List.mem_map] at hb
    obtain ⟨a, ha, rfl⟩ := hb
    rw [List.getD_eq_getElem?_getD, List.getElem?_replicate]
    split <;> rfl

/-- Every buffer slot appears in the snapshot: slot `j` is read by snapshot
position `(j + N - idx) % N`. -/
theorem RingBuffer.getD_mem_snapshot (r : RingBuffer) (h : r.idx < r.buf.length)
    (j : ℕ) (hj : j < r.buf.length) : r.buf.getD j 0 ∈ r.snapshot := by
  have hNpos : 0 < r.buf.length := Nat.lt_of_le_of_lt (Nat.zero_le _) h
  refine List.mem_map.mpr ⟨(j + r.buf.length - r.idx) % r.buf.length, ?_, ?_⟩
  · exact List.mem_range.mpr (Nat.mod_lt _ hNpos)
  · have hidx : (r.idx + (j + r.buf.length - r.idx) % r.buf.length) % r.buf.length = j := by
      rw [Nat.add_mod_mod]
      have hsum : r.idx + (j + r.buf.length - r.idx) = j + r.buf.length := by omega
      rw [hsum, Nat.add_mod_right, Nat.mod_eq_of_lt hj]
    rw [hidx]

/-- One notch step agrees with one step of the pre-normalized biquad
carrying the same delay state: same output, and the next biquad is the
pre-normalized biquad over the next notch delay state. -/
theorem notch_step_matches (sin cos : ℚ → ℚ) (nf nq sr input : ℚ) (st : DelayState) :
    ((notchNormalized sin cos nf nq sr st).process input).1
        = (notch_filter sin cos nf nq sr input st).1 ∧
    ((notchNormalized sin cos nf nq sr st).process input).2
        = notchNormalized sin cos nf nq sr (notch_filter sin cos nf nq sr input st).2 := by
  have hout : ((notchNormalized sin cos nf nq sr st).process input).1
      = (notch_filter sin cos nf nq sr input st).1 := by
    simp only [notchNormalized, notch_filter, Filter.process]
    ring
  refine ⟨hout, ?_⟩
  simp only [notchNormalized, notch_filter, Filter.process, Filter.mk.injEq,
    true_and, and_true]
  ring

/-! ## Claims -/

/-- C1: for every `Filter` instance and every input sample, `Filter::process`
returns `b0*input + b1*x1 + b2*x2 - a1*y1 - a2*y2` computed from the state
held before the call, and afterwards the delay lines hold `x2 = old x1`,
`x1 = input`, `y2 = old y1`, `y1 = the returned output`. -/
theorem filter_process_difference_equation (f : Filter) (input : ℚ) :
    (f.process input).1
      = f.b0 * input + f.b1 * f.x1 + f.b2 * f.x2 - f.a1 * f.y1 - f.a2 * f.y2 ∧
    (f.process input).2.x2 = f.x1 ∧
    (f.process input).2.x1 = input ∧
    (f.process input).2.y2 = f.y1 ∧
    (f.process input).2.y1 = (f.process input).1 :=
  ⟨rfl, rfl, rfl, rfl, rfl⟩

/-- C10: `Filter::process` mutates only the delay lines; the six coefficient
fields are unchanged by every call. -/
theorem filter_process_preserves_coefficients (f : Filter) (input : ℚ) :
    (f.process input).2.b0 = f.b0 ∧ (f.process input).2.b1 = f.b1 ∧
    (f.process input).2.b2 = f.b2 ∧ (f.process input).2.a0 = f.a0 ∧
    (f.process input).2.a1 = f.a1 ∧ (f.process input).2.a2 = f.a2 :=
  ⟨rfl, rfl, rfl, rfl, rfl, rfl⟩

/-- C2: the constructor computes its coefficients by the specified formulas
(high-pass and low-pass from `omega = 2*pi*freq1/sample_rate` and
`alpha = sin(omega)/(2q)`; band-pass from the center `wc`, the bandwidth
`bw` and `alpha = sin(bw) * sinh(ln 2 / 2 * pi / 2)` independent of Q),
divides every coefficient by the raw `a0`, and fixes `a0 = 1`, so every
constructed filter has `a0 = 1`. -/
theorem filter_construct_normalized_coefficients
    (sin cos sqrt sinh log : ℚ → ℚ) (sample_rate freq1 freq2 q : ℚ) :
    (∀ type : FilterType,
      (Filter.construct sin cos sqrt sinh log type sample_rate freq1 freq2 q).a0 = 1) ∧
    (let omega := 2 * PI * freq1 / sample_rate
     let alpha := sin omega / (2 * q)
     Filter.construct sin cos sqrt sinh log FilterType.HighPass sample_rate freq1 freq2 q
       = { b0 := ((1 + cos omega) / 2) / (1 + alpha),
           b1 := (-(1 + cos omega)) / (1 + alpha),
           b2 := ((1 + cos omega) / 2) / (1 + alpha),
           a0 := 1,
           a1 := (-2 * cos omega) / (1 + alpha),
           a2 := (1 - alpha) / (1 + alpha),
           x1 := 0, x2 := 0, y1 := 0, y2 := 0 }) ∧
    (let omega := 2 * PI * freq1 / sample_rate
     let alpha := sin omega / (2 * q)
     Filter.construct sin cos sqrt sinh log FilterType.LowPass sample_rate freq1 freq2 q
       = { b0 := ((1 - cos omega) / 2) / (1 + alpha),
           b1 := (1 - cos omega) / (1 + alpha),
           b2 := ((1 - cos omega) / 2) / (1 + alpha),
           a0 := 1,
           a1 := (-2 * cos omega) / (1 + alpha),
           a2 := (1 - alpha) / (1 + alpha),
           x1 := 0, x2 := 0, y1 := 0, y2 := 0 }) ∧
    (let wc := 2 * PI * sqrt (freq1 * freq2) / sample_rate
     let bw := 2 * PI * (freq2 - freq1) / sample_rate
     let alpha := sin bw * sinh (log 2 / 2 * (PI / 2))
     Filter.construct sin cos sqrt sinh log FilterType.BandPass sample_rate freq1 freq2 q
       = { b0 := alpha / (1 + alpha),
           b1 := 0 / (1 + alpha),
           b2 := (-alpha) / (1 + alpha),
           a0 := 1,
           a1 := (-2 * cos wc) / (1 + alpha),
           a2 := (1 - alpha) / (1 + alpha),
           x1 := 0, x2 := 0, y1 := 0, y2 := 0 }) ∧
    (∀ q2 : ℚ,
      Filter.construct sin cos sqrt sinh log FilterType.BandPass sample_rate freq1 freq2 q
        = Filter.construct sin cos sqrt sinh log FilterType.BandPass sample_rate freq1 freq2 q2) := by
  have harg : (log 2 / 2 * 1 * PI / 2 : ℚ) = log 2 / 2 * (PI / 2) := by ring
  refine ⟨fun type => ?_, rfl, rfl, ?_, fun q2 => rfl⟩
  · cases type <;> rfl
  · simp only [Filter.construct, Filter.rawCoeffs, harg]

/-- C4: a filter constructed with zero-initialized delay lines and fed an
all-zero input stream of any length `N > 2` produces an all-zero output
stream, and its state is unchanged (zero is a fixed point of `process`
given zero initial state). -/
theorem filter_zero_input_zero_output (sin cos sqrt sinh log : ℚ → ℚ)
    (type : FilterType) (sample_rate freq1 freq2 q : ℚ) (N : ℕ) (hN : 2 < N) :
    (Filter.construct sin cos sqrt sinh log type sample_rate freq1 freq2 q).processList
        (List.replicate N 0)
      = (List.replicate N 0,
         Filter.construct sin cos sqrt sinh log type sample_rate freq1 freq2 q) :=
  Filter.processList_zero _ rfl rfl rfl rfl N

/-- Witness for C4 at `N = 3`, a high-pass configuration, and identity
oracles. -/
theorem filter_zero_input_zero_output_witness :
    2 < 3 ∧
    (Filter.construct id id id id id FilterType.HighPass 2000 5 0 1).processList
        (List.replicate 3 0)
      = (List.replicate 3 0,
         Filter.construct id id id id id FilterType.HighPass 2000 5 0 1) :=
  ⟨by decide,
   filter_zero_input_zero_output id id id id id FilterType.HighPass 2000 5 0 1 3 (by decide)⟩

/-- C5: for every notch configuration and every input sequence, the notch
representation that divides the computed output by `a0` on each call
produces exactly the same output sequence as the biquad that pre-normalizes
the same coefficients (each divided by `a0`, `a0` fixed to `1`) and applies
the standard normalized per-sample update, from any common starting delay
state. -/
theorem notch_divide_equiv_prenormalized (sin cos : ℚ → ℚ)
    (notch_freq notch_q sample_rate : ℚ) (inputs : List ℚ) (st : DelayState) :
    (notchRun sin cos notch_freq notch_q sample_rate st inputs).1
      = ((notchNormalized sin cos notch_freq notch_q sample_rate st).processList inputs).1 := by
  induction inputs generalizing st with
  | nil => rfl
  | cons i rest ih =>
    have h := notch_step_matches sin cos notch_freq notch_q sample_rate i st
    simp only [notchRun, Filter.processList, h.1, h.2, ih]

/-- C6 (amended): the constructor performs no validation.  Even for an
invalid configuration — non-positive sample rate, band-pass with
`freq2 ≤ freq1`, or non-positive Q — the spec-level checked constructor
rejects the configuration, yet `Filter::Filter` constructs an ordinary
normalized filter (`a0 = 1`, zero delay lines) from the same formulas. -/
theorem filter_construct_no_validation (sin cos sqrt sinh log : ℚ → ℚ)
    (type : FilterType) (sample_rate freq1 freq2 q : ℚ)
    (hinvalid : sample_rate ≤ 0 ∨ (type = FilterType.BandPass ∧ freq2 ≤ freq1) ∨ q ≤ 0) :
    (∃ msg : String,
      Filter.constructChecked sin cos sqrt sinh log type sample_rate freq1 freq2 q
        = Except.error msg) ∧
    (Filter.construct sin cos sqrt sinh log type sample_rate freq1 freq2 q).a0 = 1 ∧
    (Filter.construct sin cos sqrt sinh log type sample_rate freq1 freq2 q).x1 = 0 ∧
    (Filter.construct sin cos sqrt sinh log type sample_rate freq1 freq2 q).x2 = 0 ∧
    (Filter.construct sin cos sqrt sinh log type sample_rate freq1 freq2 q).y1 = 0 ∧
    (Filter.construct sin cos sqrt sinh log type sample_rate freq1 freq2 q).y2 = 0 := by
  refine ⟨?_, rfl, rfl, rfl, rfl, rfl⟩
  unfold Filter.constructChecked
  split
  · exact ⟨_, rfl⟩
  · split
    · exact ⟨_, rfl⟩
    · split
      · exact ⟨_, rfl⟩
      · next hsr hbp hq =>
        rcases hinvalid with h | h | h
        · exact absurd h hsr
        · exact absurd h hbp
        · exact absurd h hq

/-- Witness for C6 (amended) at the invalid band-pass configuration
`freq1 = freq2 = 5`. -/
theorem filter_construct_no_validation_witness :
    ((2000 : ℚ) ≤ 0 ∨ (FilterType.BandPass = FilterType.BandPass ∧ (5 : ℚ) ≤ 5) ∨ (1 : ℚ) ≤ 0) ∧
    (Filter.construct id id id id id FilterType.BandPass 2000 5 5 1).a0 = 1 := by
  have h := filter_construct_no_validation id id id id id FilterType.BandPass 2000 5 5 1
    (by decide)
  exact ⟨by decide, h.2.1⟩

/-- C6 counterexample: construction with the invalid band-pass configuration
`freq1 = freq2 = 5` (rejected by the spec's fail-fast rule) does not fail:
with oracles satisfying `sin 0 = 0` (here `sin` constantly `0`, `cos`
constantly `1`) it silently returns a filter whose feedforward coefficients
are all zero, which maps the input stream `[1, 2, 3]` to `[0, 0, 0]`. -/
theorem filter_construct_invalid_accepted :
    Filter.constructChecked (fun _ => 0) (fun _ => 1) id id id
        FilterType.BandPass 2000 5 5 1
      = Except.error "band-pass requires freq1 < freq2" ∧
    (Filter.construct (fun _ => 0) (fun _ => 1) id id id
        FilterType.BandPass 2000 5 5 1).b0 = 0 ∧
    (Filter.construct (fun _ => 0) (fun _ => 1) id id id
        FilterType.BandPass 2000 5 5 1).b1 = 0 ∧
    (Filter.construct (fun _ => 0) (fun _ => 1) id id id
        FilterType.BandPass 2000 5 5 1).b2 = 0 ∧
    ((Filter.construct (fun _ => 0) (fun _ => 1) id id id
        FilterType.BandPass 2000 5 5 1).processList [1, 2, 3]).1 = [0, 0, 0] := by
  have hb : Filter.construct (fun _ => 0) (fun _ => 1) id id id
      FilterType.BandPass 2000 5 5 1
      = { b0 := 0, b1 := 0, b2 := 0, a0 := 1, a1 := -2, a2 := 1,
          x1 := 0, x2 := 0, y1 := 0, y2 := 0 } := by
    simp [Filter.construct, Filter.rawCoeffs]
  have hchk : Filter.constructChecked (fun _ => 0) (fun _ => 1) id id id
      FilterType.BandPass 2000 5 5 1
      = Except.error "band-pass requires freq1 < freq2" := by
    unfold Filter.constructChecked
    rw [if_neg (by norm_num), if_pos ⟨rfl, by norm_num⟩]
  refine ⟨hchk, ?_, ?_, ?_, ?_⟩
  · rw [hb]
  · rw [hb]
  · rw [hb]
  · rw [hb]
    norm_num [Filter.processList, Filter.process]

/-- C7 (amended): the `EMGProcessingSimulation.cpp` generator checks the
computed value for non-finiteness and returns `0` in its place; under any
finiteness notion that counts `0` as finite, its return value is always
finite, the substitution fires exactly on non-finite computed values, and a
finite computed value is returned unchanged. -/
theorem emg_generator_nonfinite_substituted (sin : ℚ → ℚ) (is_finite : ℚ → Bool)
    (d : Draws) (buffer_index : ℕ) (t : ℚ) (s : GenState)
    (h0 : is_finite 0 = true) :
    is_finite (generate_emg_signal sin is_finite d buffer_index t s).1 = true ∧
    (is_finite (generate_emg_compute sin d buffer_index t s).1 = false →
      (generate_emg_signal sin is_finite d buffer_index t s).1 = 0) ∧
    (is_finite (generate_emg_compute sin d buffer_index t s).1 = true →
      generate_emg_signal sin is_finite d buffer_index t s
        = generate_emg_compute sin d buffer_index t s) := by
  unfold generate_emg_signal
  cases hc : is_finite (generate_emg_compute sin d buffer_index t s).1 with
  | true => simp [hc]
  | false => simp [hc, h0]

/-- Witness for C7 (amended) with the constantly-true finiteness oracle. -/
theorem emg_generator_nonfinite_substituted_witness :
    ((fun _ : ℚ => true) 0 = true) ∧
    (fun _ : ℚ => true)
        (generate_emg_signal id (fun _ => true) ⟨0, 0, 0, 0, 0, 0, 0⟩ 0 0 ⟨0, 0, 1, 0⟩).1
      = true :=
  ⟨rfl,
   (emg_generator_nonfinite_substituted id (fun _ => true)
     ⟨0, 0, 0, 0, 0, 0, 0⟩ 0 0 ⟨0, 0, 1, 0⟩ rfl).1⟩

/-- C7 counterexample: the `Wave_Processing.cpp` generator performs no
finiteness check at all — its return value is the computed value, so no
finiteness notion (however it classifies the computed value) is guaranteed
on the output.  Concretely, with `sin` constantly `0` and a noise draw of
`7`, the generator returns `7`; for the finiteness oracle that counts only
`0` as finite (which does count `0` as finite), the returned sample is
classified non-finite — the substitution policy the claim asserts does not
exist in this generator. -/
theorem wave_generator_unguarded :
    ¬ ∀ is_finite : ℚ → Bool, is_finite 0 = true →
        is_finite (wave_generate_emg_signal (fun _ => 0)
          ⟨1, 1, 0, 0, 0, 0, 7⟩ 1 0 ⟨0, 0, 1, 0⟩).1 = true := by
  intro h
  have h2 := h (fun x => decide (x = 0)) (by simp)
  have hval : (wave_generate_emg_signal (fun _ => 0)
      ⟨1, 1, 0, 0, 0, 0, 7⟩ 1 0 ⟨0, 0, 1, 0⟩).1 = 7 := by
    simp [wave_generate_emg_signal]
  rw [hval] at h2
  simp only [decide_eq_true_eq] at h2
  exact absurd h2 (by norm_num)

/-- C8: the burst state machine of the generators: off the every-50th-sample
grid the draws are irrelevant and only a positive countdown is decremented;
on the grid a successful trial (draw below `0.2`) installs the drawn burst
multiplier and arms the 100-sample countdown (99 after this sample's
decrement); a failed trial with a positive countdown leaves the multiplier
alone and decrements; a failed trial with the countdown exhausted resets
the multiplier to `1`. -/
theorem burst_state_machine (d : Draws) (buffer_index : ℕ) (s : GenState) :
    (buffer_index % 50 ≠ 0 →
      burstUpdate d buffer_index s
        = (s.burst_factor,
           if s.burst_duration > 0 then s.burst_duration - 1 else s.burst_duration)) ∧
    (buffer_index % 50 = 0 → d.burst_trial < 0.2 →
      burstUpdate d buffer_index s = (d.burst_scale, 99)) ∧
    (buffer_index % 50 = 0 → ¬ d.burst_trial < 0.2 → s.burst_duration > 0 →
      burstUpdate d buffer_index s = (s.burst_factor, s.burst_duration - 1)) ∧
    (buffer_index % 50 = 0 → ¬ d.burst_trial < 0.2 → s.burst_duration ≤ 0 →
      burstUpdate d buffer_index s = (1, s.burst_duration)) := by
  refine ⟨fun h => ?_, fun h h2 => ?_, fun h h2 h3 => ?_, fun h h2 h3 => ?_⟩
  · simp [burstUpdate, h]
  · simp [burstUpdate, h, h2]
  · have hne : ¬ s.burst_duration ≤ 0 := by omega
    simp [burstUpdate, h, h2, hne, h3]
  · have hng : ¬ s.burst_duration > 0 := by omega
    simp [burstUpdate, h, h2, h3, hng]

/-- Witness for C8: at sample index 50, a trial draw of `0.1 < 0.2` installs
the drawn multiplier `2` and leaves the countdown at `99` after the
decrement. -/
theorem burst_state_machine_witness :
    (50 % 50 = 0) ∧ ((0.1 : ℚ) < 0.2) ∧
    burstUpdate ⟨0.1, 2, 0, 0, 0, 0, 0⟩ 50 ⟨0, 0, 1, 0⟩ = (2, 99) :=
  ⟨rfl, by norm_num,
   (burst_state_machine ⟨0.1, 2, 0, 0, 0, 0, 0⟩ 50 ⟨0, 0, 1, 0⟩).2.1 rfl (by norm_num)⟩

/-- C9: when the adjustable high-pass cutoff has changed, the
reconfiguration step replaces only the high-pass stage — reconstructed from
the constructor with fresh zero delay lines — while the band-pass and
low-pass stages (coefficients and delay-line history) are untouched; and a
full tick applies the reconfiguration strictly before the tick body, never
mid-cascade. -/
theorem reconfigure_only_highpass (sin cos sqrt sinh log : ℚ → ℚ)
    (cutoff : ℚ) (s : SimState) (h : cutoff ≠ s.last_highpass_cutoff) :
    (simReconfigure sin cos sqrt sinh log cutoff s).bandPassFilter = s.bandPassFilter ∧
    (simReconfigure sin cos sqrt sinh log cutoff s).lowPassFilter = s.lowPassFilter ∧
    (simReconfigure sin cos sqrt sinh log cutoff s).highPassFilter
      = Filter.construct sin cos sqrt sinh log FilterType.HighPass SAMPLE_RATE cutoff 0 1 ∧
    (simReconfigure sin cos sqrt sinh log cutoff s).highPassFilter.x1 = 0 ∧
    (simReconfigure sin cos sqrt sinh log cutoff s).highPassFilter.x2 = 0 ∧
    (simReconfigure sin cos sqrt sinh log cutoff s).highPassFilter.y1 = 0 ∧
    (simReconfigure sin cos sqrt sinh log cutoff s).highPassFilter.y2 = 0 ∧
    (simReconfigure sin cos sqrt sinh log cutoff s).last_highpass_cutoff = cutoff ∧
    (∀ (is_finite : ℚ → Bool) (d : Draws),
      simTick sin cos sqrt sinh log is_finite cutoff d s
        = simTickBody sin is_finite d (simReconfigure sin cos sqrt sinh log cutoff s)) := by
  have hr : simReconfigure sin cos sqrt sinh log cutoff s
      = { s with
          highPassFilter := Filter.construct sin cos sqrt sinh log FilterType.HighPass
            SAMPLE_RATE cutoff 0 1,
          last_highpass_cutoff := cutoff } := by
    unfold simReconfigure
    rw [if_pos h]
  exact ⟨by rw [hr], by rw [hr], by rw [hr], by rw [hr]; rfl, by rw [hr]; rfl,
    by rw [hr]; rfl, by rw [hr]; rfl, by rw [hr], fun is_finite d => rfl⟩

/-- Witness for C9: a cutoff change from `5` to `6` on a concrete state. -/
theorem reconfigure_only_highpass_witness :
    ((6 : ℚ) ≠ 5) ∧
    (simReconfigure id id id id id 6
        ⟨[], [], [], 0, ⟨0, 0, 0, 1, 0, 0, 0, 0, 0, 0⟩, ⟨0, 0, 0, 1, 0, 0, 0, 0, 0, 0⟩,
          ⟨0, 0, 0, 1, 0, 0, 0, 0, 0, 0⟩, 5, 0, ⟨0, 0, 1, 0⟩⟩).bandPassFilter
      = ⟨0, 0, 0, 1, 0, 0, 0, 0, 0, 0⟩ ∧
    (simReconfigure id id id id id 6
        ⟨[], [], [], 0, ⟨0, 0, 0, 1, 0, 0, 0, 0, 0, 0⟩, ⟨0, 0, 0, 1, 0, 0, 0, 0, 0, 0⟩,
          ⟨0, 0, 0, 1, 0, 0, 0, 0, 0, 0⟩, 5, 0, ⟨0, 0, 1, 0⟩⟩).highPassFilter.x1 = 0 := by
  have h := reconfigure_only_highpass id id id id id 6
    ⟨[], [], [], 0, ⟨0, 0, 0, 1, 0, 0, 0, 0, 0, 0⟩, ⟨0, 0, 0, 1, 0, 0, 0, 0, 0, 0⟩,
      ⟨0, 0, 0, 1, 0, 0, 0, 0, 0, 0⟩, 5, 0, ⟨0, 0, 1, 0⟩⟩ (by decide)
  exact ⟨by decide, h.1, h.2.2.2.1⟩

/-- C3: for a ring buffer of capacity `N`, after pushing `N + k` samples
with `k > 0` the snapshot read at indices `(write_cursor + i) % N` for
`i = 0 .. N-1` is exactly the last `N` pushed values, oldest first; and
every retrievable slot of the buffer holds one of those last `N` values, so
no sample pushed more than `N` ticks ago is retrievable. -/
theorem ring_buffer_snapshot_last_capacity (N k : ℕ) (vs : List ℚ)
    (hN : 0 < N) (hk : 0 < k) (hlen : vs.length = N + k) :
    ((RingBuffer.init N).pushAll vs).snapshot = vs.drop k ∧
    ∀ j < N, ((RingBuffer.init N).pushAll vs).buf.getD j 0 ∈ vs.drop k := by
  have hinit : (RingBuffer.init N).idx < (RingBuffer.init N).buf.length := by
    simpa [RingBuffer.init] using hN
  have hsnap := RingBuffer.snapshot_pushAll (RingBuffer.init N) vs hinit
  rw [RingBuffer.snapshot_init] at hsnap
  have hdropN : (List.replicate N (0 : ℚ) ++ vs).drop N = vs := by
    have hleft := List.drop_left (List.replicate N (0 : ℚ)) vs
    rwa [List.length_replicate] at hleft
  have hsw : (List.replicate N (0 : ℚ) ++ vs).drop (N + k)
      = ((List.replicate N (0 : ℚ) ++ vs).drop N).drop k := by
    rw [List.drop_drop, Nat.add_comm]
  have hdrop : (List.replicate N (0 : ℚ) ++ vs).drop vs.length = vs.drop k := by
    rw [hlen, hsw, hdropN]
  rw [hdrop] at hsnap
  refine ⟨hsnap, fun j hj => ?_⟩
  have hlen2 : ((RingBuffer.init N).pushAll vs).buf.length = N := by
    rw [RingBuffer.length_pushAll]
    simp [RingBuffer.init]
  have hidx2 := RingBuffer.idx_pushAll_lt (RingBuffer.init N) vs hinit
  have hmem := RingBuffer.getD_mem_snapshot _ hidx2 j (by rw [hlen2]; exact hj)
  rwa [hsnap] at hmem

/-- Witness for C3: capacity `3`, five pushes, snapshot `[3, 4, 5]`. -/
theorem ring_buffer_snapshot_last_capacity_witness :
    0 < 3 ∧ 0 < 2 ∧ ([1, 2, 3, 4, 5] : List ℚ).length = 3 + 2 ∧
    ((RingBuffer.init 3).pushAll [1, 2, 3, 4, 5]).snapshot = [3, 4, 5] :=
  ⟨by decide, by decide, rfl,
   (ring_buffer_snapshot_last_capacity 3 2 [1, 2, 3, 4, 5]
     (by decide) (by decide) rfl).1⟩

end Delsys
